import Mathlib

/-!
Verification of the ReadyDOC legal-document Telegram bot
(`bot.py`, `session_manager.py`, `utils/docgen.py`).

Python strings are modelled as `List Char`; each definition below is a
shallow embedding of the corresponding Python function, translated
statement by statement from the source. Scanning and replacement
functions that jump over matched substrings are written with an explicit
length fuel so that they are structurally recursive (hence kernel
computable); their natural unfolding equations are proved as theorems.
-/

/-- Python strings, modelled as lists of characters. -/
abbrev Str := List Char

/-- Convert a Lean string literal into the `Str` model. -/
def str (s : String) : Str := s.data

/-! ## Basic Python string primitives -/

/-- The ASCII whitespace characters stripped by Python `str.strip()`
(space, tab, newline, carriage return, vertical tab, form feed). -/
def pyWS (c : Char) : Bool :=
  c = ' ' || c = '\t' || c = '\n' || c = '\x0d' || c = '\x0b' || c = '\x0c'

/-- Python `str.strip()`: drop leading and trailing whitespace. -/
def pyStrip (s : Str) : Str :=
  ((s.dropWhile pyWS).reverse.dropWhile pyWS).reverse

/-- ASCII decimal digit test. -/
def isDig (c : Char) : Bool := '0' ≤ c && c ≤ '9'

/-- Python `str.isdigit()` on the ASCII-digit strings this bot handles:
true iff the string is non-empty and all characters are decimal digits.
(Python also accepts other Unicode digit characters; none occur here.) -/
def pyIsdigit (s : Str) : Bool := !s.isEmpty && s.all isDig

/-- Decimal rendering of a non-negative integer (fuel-indexed; structural
recursion so that it computes in the kernel). -/
def natStrAux : Nat → Nat → Str
  | 0, _ => []
  | fuel + 1, n =>
    if n < 10 then [Char.ofNat (48 + n)]
    else natStrAux fuel (n / 10) ++ [Char.ofNat (48 + n % 10)]

/-- Decimal rendering of a non-negative integer, as in Python `f"{amount}"`.
The fuel `n + 1` always suffices: the recursion divides by 10, and
`n / 10 < n` for `n ≥ 10`, so the fuel stays strictly above the argument. -/
def natStr (n : Nat) : Str := natStrAux (n + 1) n

/-- Python `int()` on the values this bot feeds it: a non-empty all-digit
string parses to its decimal value; anything else raises `ValueError`
(modelled as `none`). -/
def pyIntOpt (s : Str) : Option Nat :=
  if pyIsdigit s then some (s.foldl (fun a c => a * 10 + (c.toNat - 48)) 0)
  else none

/-- Boolean prefix test on character lists (`pat` is a prefix of `s`). -/
def isPre : Str → Str → Bool
  | [], _ => true
  | _ :: _, [] => false
  | a :: pa, b :: pb => a = b && isPre pa pb

/-! ## Placeholder extraction

`bot.py` line 899: `raw_vars = list(set(re.findall(r'\[(.*?)\]', document_text)))`.
The lazy group `(.*?)` stops at the first `]`, and `.` does not match a
newline, so a `[` whose first following `]` is preceded by a newline (or
absent) starts no match and the regex engine retries from the next
character. -/

/-- The behaviour of the lazy group `(.*?)\]` after an opening `[`:
consume characters up to the first `]` (returning the token and the rest
of the input), failing on a newline or the end of input. -/
def scanToken : Str → Option (Str × Str)
  | [] => none
  | c :: rest =>
    if c = ']' then some ([], rest)
    else if c = '\n' then none
    else match scanToken rest with
      | some (t, r) => some (c :: t, r)
      | none => none

/-- Fuel-indexed scan for `re.findall(r'\[(.*?)\]', text)`: at each `[`
try to close a token before a newline, else move one character on. -/
def findAux : Nat → Str → List Str
  | 0, _ => []
  | _ + 1, [] => []
  | fuel + 1, c :: rest =>
    if c = '[' then
      match scanToken rest with
      | some (t, r) => t :: findAux fuel r
      | none => findAux fuel rest
    else findAux fuel rest

/-- `re.findall(r'\[(.*?)\]', text)` (bot.py line 899), as the list of
captured groups in scan order. -/
def findPlaceholders (s : Str) : List Str := findAux s.length s

/-- The specification's extraction regex `\[([^\]]+)\]` (spec section 4.4):
the group is non-empty, may not contain `]`, and (being a negated class)
does match newlines. Used only to compare the spec's words with the
code's regex. -/
def scanTokenSpec : Str → Option (Str × Str)
  | [] => none
  | c :: rest =>
    if c = ']' then some ([], rest)
    else match scanTokenSpec rest with
      | some (t, r) => some (c :: t, r)
      | none => none

/-- Fuel-indexed scan for the spec's regex `\[([^\]]+)\]`: a match needs at
least one character between the brackets, so `[]` is skipped. -/
def findSpecAux : Nat → Str → List Str
  | 0, _ => []
  | _ + 1, [] => []
  | fuel + 1, c :: rest =>
    if c = '[' then
      match scanTokenSpec rest with
      | some (t, r) => if t.isEmpty then findSpecAux fuel rest else t :: findSpecAux fuel r
      | none => findSpecAux fuel rest
    else findSpecAux fuel rest

/-- The scan described by the spec's regex `\[([^\]]+)\]`. -/
def findPlaceholdersSpec (s : Str) : List Str := findSpecAux s.length s

/-! ## `str.replace` and placeholder substitution -/

/-- Fuel-indexed Python `str.replace` with the non-empty pattern
`p :: pt`: scan left to right, replacing every non-overlapping occurrence
with `rep`. -/
def replAux (p : Char) (pt rep : Str) : Nat → Str → Str
  | 0, s => s
  | _ + 1, [] => []
  | fuel + 1, c :: rest =>
    if isPre (p :: pt) (c :: rest) then
      rep ++ replAux p pt rep fuel (rest.drop pt.length)
    else
      c :: replAux p pt rep fuel rest

/-- Python `str.replace(pat, rep)`. All patterns used by the bot are
bracketed placeholders, hence non-empty; the empty pattern (which Python
treats specially) never occurs. -/
def strReplace (s pat rep : Str) : Str :=
  match pat with
  | [] => s
  | p :: pt => replAux p pt rep s.length s

/-- The literal text of a placeholder: `f"[{var}]"`. -/
def bracketPat (n : Str) : Str := '[' :: n ++ [']']

/-- The substitution loop of `prepare_final_document` (bot.py 1038-1040):
`for var, value in filled.items(): document_text = document_text.replace(f"[{var}]", value)`.
The dict is modelled as an association list in iteration order. -/
def substituteVars (filled : List (Str × Str)) (text : Str) : Str :=
  filled.foldl (fun acc p => strReplace acc (bracketPat p.1) p.2) text

/-- First-match association-list lookup, modelling Python dict access. -/
def lookupStr (l : List (Str × Str)) (k : Str) : Option Str :=
  match l with
  | [] => none
  | p :: rest => if p.1 = k then some p.2 else lookupStr rest k

/-! ## Well-formed placeholder texts

A segment decomposition of a document: literal text free of `[`,
alternating with placeholder tokens `[name]` whose names are non-empty
and contain no bracket or newline. This is the shape of the documents the
generation prompts ask for, and the shape on which the spec's extraction
and substitution claims are settled. -/

inductive Seg where
  | plain : Str → Seg
  | tok : Str → Seg
deriving DecidableEq

/-- The text of a segment. -/
def Seg.render : Seg → Str
  | .plain s => s
  | .tok n => bracketPat n

/-- The text of a segment list. -/
def renderAll : List Seg → Str
  | [] => []
  | sg :: rest => sg.render ++ renderAll rest

/-- A character allowed in a placeholder name. -/
def validNameChar (c : Char) : Prop := c ≠ '[' ∧ c ≠ ']' ∧ c ≠ '\n'

/-- A well-formed placeholder name: non-empty, no brackets, no newline. -/
def ValidName (n : Str) : Prop := n ≠ [] ∧ ∀ c ∈ n, validNameChar c

/-- Well-formedness of one segment. -/
def SegOK : Seg → Prop
  | .plain s => ∀ c ∈ s, c ≠ '['
  | .tok n => ValidName n

/-- Well-formedness of a decomposition. -/
def SegsOK (l : List Seg) : Prop := ∀ sg ∈ l, SegOK sg

/-- The placeholder names of a decomposition, in order. -/
def tokNames : List Seg → List Str
  | [] => []
  | .plain _ :: rest => tokNames rest
  | .tok n :: rest => n :: tokNames rest

/-- Replacing the token `n` by the literal text `v`, segment-wise. -/
def replaceTok (n v : Str) : List Seg → List Seg
  | [] => []
  | .plain s :: rest => .plain s :: replaceTok n v rest
  | .tok m :: rest => (if m = n then .plain v else .tok m) :: replaceTok n v rest

/-! ### The substitution loop over a whole variable map -/

/-- The effect of the substitution loop on a segment decomposition. -/
def foldRT (M : List (Str × Str)) (l : List Seg) : List Seg :=
  M.foldl (fun segs p => replaceTok p.1 p.2 segs) l

/-- Well-formedness conditions on one map entry: the key could have been
extracted from a well-formed text, and the value introduces no opening
bracket. -/
def EntryOK (q : Str × Str) : Prop :=
  (∀ c ∈ q.1, c ≠ ']') ∧ ∀ c ∈ q.2, c ≠ '['

/-! ## `num2words` (bot.py 190-211)

The bot's simplified Russian number-to-words converter: nested word
tables for units, teens, tens and hundreds, and an inner `_convert` that
recurses once on `n % 100` in the hundreds branch. The fuel `2` makes the
recursion structural and is exact: the recursive call receives
`n % 100 < 100`, which never reaches the recursive branch again. -/

def units : List Str :=
  [str "", str "один", str "два", str "три", str "четыре", str "пять", str "шесть",
   str "семь", str "восемь", str "девять"]

def teens : List Str :=
  [str "десять", str "одиннадцать", str "двенадцать", str "тринадцать", str "четырнадцать",
   str "пятнадцать", str "шестнадцать", str "семнадцать", str "восемнадцать", str "девятнадцать"]

def tens : List Str :=
  [str "", str "", str "двадцать", str "тридцать", str "сорок", str "пятьдесят",
   str "шестьдесят", str "семьдесят", str "восемьдесят", str "девяносто"]

def hundreds : List Str :=
  [str "", str "сто", str "двести", str "триста", str "четыреста", str "пятьсот",
   str "шестьсот", str "семьсот", str "восемьсот", str "девятьсот"]

/-- The inner `_convert` of `num2words`. Python list indexing here is
always in bounds for the branches taken; `List.getD` with default `[]`
models it on those indices. -/
def numConvertAux : Nat → Nat → Str
  | 0, _ => []
  | fuel + 1, n =>
    if n < 10 then units.getD n []
    else if n < 20 then teens.getD (n - 10) []
    else if n < 100 then
      tens.getD (n / 10) [] ++ (if n % 10 != 0 then ' ' :: units.getD (n % 10) [] else [])
    else if n < 1000 then
      hundreds.getD (n / 100) [] ++ (if n % 100 != 0 then ' ' :: numConvertAux fuel (n % 100) else [])
    else []

/-- `_convert(num)` with its exact fuel. -/
def numConvert (n : Nat) : Str := numConvertAux 2 n

/-- `num2words(num)`: `_convert(num).strip()`. -/
def num2words (n : Nat) : Str := pyStrip (numConvert n)

/-! ## The substitution stage of `prepare_final_document` (bot.py 1032-1048) -/

/-- The dict key `АРЕНДНАЯ_ПЛАТА` (rent amount). -/
def rentKey : Str := str "АРЕНДНАЯ_ПЛАТА"

/-- The placeholder name `АРЕНДНАЯ_ПЛАТА_ПРОПИСЬЮ` (rent amount in words). -/
def rentWordsKey : Str := str "АРЕНДНАЯ_ПЛАТА_ПРОПИСЬЮ"

/-- `f"{amount} ({self.num2words(amount)}) рублей"`. -/
def amountPhrase (amount : Nat) : Str :=
  natStr amount ++ str " (" ++ num2words amount ++ str ") рублей"

/-- bot.py 1032-1048, the substitution part of `prepare_final_document`:
run the replacement loop over `filled`, then, if `АРЕНДНАЯ_ПЛАТА` was
filled, parse it with `int()` (a `ValueError` aborts the handler — the
`none` case) and replace `[АРЕНДНАЯ_ПЛАТА_ПРОПИСЬЮ]` with the formatted
amount phrase. -/
def prepare_final_substitution (filled : List (Str × Str)) (text : Str) : Option Str :=
  let t := substituteVars filled text
  match lookupStr filled rentKey with
  | none => some t
  | some v =>
    match pyIntOpt v with
    | none => none
    | some amount => some (strReplace t (bracketPat rentWordsKey) (amountPhrase amount))

instance (n : Str) : Decidable (ValidName n) := by
  unfold ValidName validNameChar
  infer_instance

instance (sg : Seg) : Decidable (SegOK sg) := by
  cases sg <;> (unfold SegOK; infer_instance)

instance (l : List Seg) : Decidable (SegsOK l) := by
  unfold SegsOK
  infer_instance

instance (q : Str × Str) : Decidable (EntryOK q) := by
  unfold EntryOK
  infer_instance

/-! ## Field validators (bot.py 187-188 and 593-634) -/

/-- `validate_inn` (bot.py 187-188): `inn.isdigit() and len(inn) in (10, 12)`. -/
def validate_inn (inn : Str) : Bool :=
  pyIsdigit inn && (inn.length == 10 || inn.length == 12)

/-- The date check of `handle_variable_input` (bot.py 610):
`re.match(r'\d{2}\.\d{2}\.\d{4}', user_input)` — an anchored prefix
match: two digits, a dot, two digits, a dot, four digits. -/
def dateMatch (s : Str) : Bool :=
  match s with
  | d1 :: d2 :: p1 :: d3 :: d4 :: p2 :: d5 :: d6 :: d7 :: d8 :: _ =>
    isDig d1 && isDig d2 && (p1 == '.') && isDig d3 && isDig d4 && (p2 == '.') &&
    isDig d5 && isDig d6 && isDig d7 && isDig d8
  | _ => false

/-! ## The generation client (bot.py 1218-1249) -/

/-- The possible outcomes of the awaited OpenAI chat-completion call
inside `generate_gpt_response`. -/
inductive ApiOutcome where
  | ok : Str → ApiOutcome
  | readTimeout : ApiOutcome
  | apiError : ApiOutcome
deriving DecidableEq

/-- The `GenerationError` exception named by the spec's generation-client
contract (spec section 4.3). The code defines no such class; the type
exists only to state that contract. -/
inductive GenerationError where
  | mk : GenerationError
deriving DecidableEq

/-- The apology returned on `httpx.ReadTimeout`. -/
def timeoutApology : Str := str "❌ Превышено время ожидания ответа. Попробуйте позже."

/-- The apology returned on any other exception. -/
def errorApology : Str := str "❌ Ошибка генерации. Попробуйте позже."

/-- `generate_gpt_response` (bot.py 1218-1249): on success the stripped
completion text; `httpx.ReadTimeout` and every other exception are
caught inside and an apology string is returned as the normal value. -/
def generate_gpt_response (o : ApiOutcome) : Str :=
  match o with
  | .ok content => pyStrip content
  | .readTimeout => timeoutApology
  | .apiError => errorApology

/-- `generate_gpt_response` viewed as a fallible call — what the coroutine
returns or raises. Every path returns normally, so the result is always
`Except.ok`. -/
def generate_gpt_responseExc (o : ApiOutcome) : Except GenerationError Str :=
  Except.ok (generate_gpt_response o)

/-- The spec's generation-client contract (section 4.3), stated from the
spec's words for comparison: `generate` fails with a `GenerationError` on
network/timeout/API error. -/
def specGenerateContract (o : ApiOutcome) : Except GenerationError Str :=
  match o with
  | .ok content => Except.ok (pyStrip content)
  | .readTimeout => Except.error GenerationError.mk
  | .apiError => Except.error GenerationError.mk

/-- The session effect of a caller, `handle_special_terms`
(bot.py 656-680): the generation result is stored as `final_document`
and the state is not cleared on its success path. -/
structure TermsResult where
  final_document : Str
  session_cleared : Bool
deriving DecidableEq

/-- `handle_special_terms` reduced to its stored document and whether it
clears the session: the generation result — apology string included — is
saved as the new `final_document`. -/
def handle_special_terms (o : ApiOutcome) : TermsResult :=
  { final_document := generate_gpt_response o, session_cleared := false }

/-! ## The session store (session_manager.py) -/

/-- `SessionData` (session_manager.py 1-5). -/
structure SessionData where
  document_type : Option Str
  answers : List (Str × Str)
  is_complete : Bool
deriving DecidableEq

/-- `SessionData.__init__`: `document_type = None`, `answers = {}`,
`is_complete = False`. -/
def SessionData.init : SessionData :=
  { document_type := none, answers := [], is_complete := false }

/-- The `sessions` dict of `SessionManager`, keyed by user id. -/
abbrev SessionStore := List (Nat × SessionData)

/-- Dict membership/lookup on the store. -/
def storeLookup (sm : SessionStore) (uid : Nat) : Option SessionData :=
  match sm with
  | [] => none
  | p :: rest => if p.1 = uid then some p.2 else storeLookup rest uid

/-- `get_session` (session_manager.py 11-14): if the user id is absent a
fresh `SessionData()` is inserted; the (possibly new) session is
returned together with the updated store. It never returns `None`. -/
def get_session (sm : SessionStore) (uid : Nat) : SessionData × SessionStore :=
  match storeLookup sm uid with
  | some sd => (sd, sm)
  | none => (SessionData.init, sm ++ [(uid, SessionData.init)])

/-- `clear_session` (session_manager.py 16-18): delete the entry if
present. -/
def clear_session (sm : SessionStore) (uid : Nat) : SessionStore :=
  sm.filter (fun p => p.1 != uid)

/-! ## The description handler (bot.py 258-309) -/

/-- The aiogram FSM states `DocGenState` (bot.py 89-97). -/
inductive DocGenState where
  | waiting_for_initial_input
  | waiting_for_rent_details
  | waiting_for_parties_info
  | current_variable
  | document_review
  | waiting_for_special_terms
  | waiting_for_additional_clauses
  | parties_confirmation
deriving DecidableEq

/-- Python `str.lower()` on the ASCII and Cyrillic letters this bot
compares: ASCII `A`-`Z` and Cyrillic `А`-`Я` map down by 0x20 and `Ё`
maps to `ё`; other characters are unchanged. -/
def lowerChar (c : Char) : Char :=
  if 'A' ≤ c ∧ c ≤ 'Z' then Char.ofNat (c.toNat + 32)
  else if 'А' ≤ c ∧ c ≤ 'Я' then Char.ofNat (c.toNat + 32)
  else if c = 'Ё' then 'ё'
  else c

/-- Python `str.lower()` under the model above. -/
def pyLower (s : Str) : Str := s.map lowerChar

/-- Python substring membership `needle in hay`. -/
def strIn : Str → Str → Bool
  | needle, [] => needle.isEmpty
  | needle, c :: rest => isPre needle (c :: rest) || strIn needle rest

/-- The rental keywords of `handle_description` (bot.py 267-268). -/
def rentalKeywords : List Str :=
  [str "аренд", str "съем", str "помещен", str "площад", str "офис", str "магазин",
   str "кафе", str "салон"]

/-- The cafe keywords (bot.py 276). -/
def cafeKeywords : List Str :=
  [str "кафе", str "кофейн", str "ресторан", str "столов", str "бар"]

/-- The shop keywords (bot.py 278). -/
def shopKeywords : List Str :=
  [str "магазин", str "торгов", str "рознич", str "бутик"]

/-- The beauty-salon keywords (bot.py 280). -/
def beautyKeywords : List Str :=
  [str "салон красот", str "парикмахер", str "ногтев", str "косметолог"]

/-- The too-long warning (bot.py 262). -/
def tooLongWarning : Str := str "⚠️ Слишком длинный текст. Укороти, пожалуйста."

/-- The rental clarification prompt (bot.py 286-295), with Python's
implicit literal concatenation applied. -/
def rentClarifyMsg : Str :=
  str "🏢 <b>Уточните детали аренды:</b>\n\n1. <b>Тип помещения:</b>\n   - Офисное\n   - Торговое\n   - Производственное\n   - Складское\n2. <b>Площадь:</b> (в кв.м.)\n3. <b>Мебель/техника:</b> (да/нет)\n4. <b>Система налогообложения арендодателя:</b> (ОСН/УСН/Патент)\n5. <b>Особые условия:</b> (депозит, коммунальные платежи, субаренда)\n\n<i>Пример: Офисное помещение 35 м², без мебели, арендодатель на УСН, коммунальные платежи включены в аренду, депозит 2 месяца</i>"

/-- The parties prompt (bot.py 299-302). -/
def partiesMsg : Str :=
  str "👥 <b>Укажите стороны договора:</b>\n\n<i>Пример:\nАрендодатель: ООО \x27Ромашка\x27\nАрендатор: Иван Иванов (ИП)</i>"

/-- What `handle_description` leaves behind: the FSM state after the
handler, the messages sent, and the data written with `update_data`
(`none` meaning the key was not written). -/
structure DescResult where
  newState : DocGenState
  messages : List Str
  initial_text : Option Str
  is_rental : Option Bool
  business_type : Option Str
deriving DecidableEq

/-- `handle_description` (bot.py 258-309): the `len(message.text) > 3000`
guard answers one warning and returns — state and data untouched —
otherwise the text is stored, classified by the rental and business-type
keyword scans, and the state moves to `waiting_for_rent_details` or
`waiting_for_parties_info`. -/
def handle_description (text : Str) : DescResult :=
  if text.length > 3000 then
    { newState := .waiting_for_initial_input, messages := [tooLongWarning],
      initial_text := none, is_rental := none, business_type := none }
  else
    let text_lower := pyLower text
    let rental := rentalKeywords.any (fun kw => strIn kw text_lower)
    let btype :=
      if cafeKeywords.any (fun kw => strIn kw text_lower) then str "cafe"
      else if shopKeywords.any (fun kw => strIn kw text_lower) then str "shop"
      else if beautyKeywords.any (fun kw => strIn kw text_lower) then str "beauty"
      else str "other"
    if rental then
      { newState := .waiting_for_rent_details, messages := [rentClarifyMsg],
        initial_text := some text, is_rental := some rental, business_type := some btype }
    else
      { newState := .waiting_for_parties_info, messages := [partiesMsg],
        initial_text := some text, is_rental := some rental, business_type := some btype }

/-! ## Role classification (bot.py 123-172) -/

/-- The parsed shape of the role-classification JSON: `roles`
(party → fields), `field_descriptions`, `variables`. -/
structure RoleInfo where
  roles : List (Str × List Str)
  field_descriptions : List (Str × Str)
  vars : List Str
deriving DecidableEq

/-- The `{"roles": {}, "field_descriptions": {}, "variables": []}`
fallback of `identify_roles`. -/
def emptyRoleInfo : RoleInfo := { roles := [], field_descriptions := [], vars := [] }

/-- `re.search(r'\{.*\}', response, re.DOTALL)`: with `.*` greedy and
matching newlines, the match runs from the first `{` that still has a
`}` after it to the last `}` of the whole string. -/
def extractJsonBlock : Str → Option Str
  | [] => none
  | c :: rest =>
    if c = '{' ∧ '}' ∈ rest then
      some ('{' :: rest.take (rest.length - rest.reverse.indexOf '}'))
    else extractJsonBlock rest

/-- The standard variables appended by `identify_roles` (bot.py 163-165). -/
def standard_vars : List Str :=
  [str "АДРЕС_ОБЪЕКТА", str "ПЛОЩАДЬ", str "КАДАСТРОВЫЙ_НОМЕР", str "АРЕНДНАЯ_ПЛАТА",
   str "СРОК_АРЕНДЫ", str "ДАТА_НАЧАЛА", str "ДАТА_ОКОНЧАНИЯ", str "СТАВКА_НДС",
   str "ДЕПОЗИТ", str "КОММУНАЛЬНЫЕ_ПЛАТЕЖИ"]

/-- The post-parse fix-up of `identify_roles` (bot.py 160-168): make sure
`variables` exists and append each missing standard variable. -/
def addStandardVars (r : RoleInfo) : RoleInfo :=
  { r with vars :=
      standard_vars.foldl (fun vs v => if v ∈ vs then vs else vs ++ [v]) r.vars }

/-- `identify_roles` (bot.py 123-172). The generation call itself never
raises (`generate_gpt_responseExc` is always `ok`), so `response` is the
returned string; `loads` abstracts `json.loads` together with the
conversion of the parsed value into `RoleInfo` — `none` when parsing or
the fix-up raises, which the surrounding `except` turns into the empty
mapping. The second component is the list of user-visible messages the
function sends: always empty, failures are only logged. -/
def identify_roles (response : Str) (loads : Str → Option RoleInfo) :
    RoleInfo × List Str :=
  match extractJsonBlock response with
  | some block =>
    match loads block with
    | some r => (addStandardVars r, [])
    | none => (emptyRoleInfo, [])
  | none => (emptyRoleInfo, [])

/-! ## The document exporter (bot.py 1251-1264, utils/docgen.py 11-21) -/

/-- Python `text.split("\n")`: split on newline, keeping empty pieces
(never returns an empty list). -/
def pySplitNl : Str → List Str
  | [] => [[]]
  | c :: rest =>
    if c = '\n' then [] :: pySplitNl rest
    else
      match pySplitNl rest with
      | l :: ls => (c :: l) :: ls
      | [] => [[c]]

/-- The paragraph loop of `save_docx` (bot.py 1253-1256):
`for para in text.split("\n"): if para.strip(): doc.add_paragraph(para)`. -/
def save_docx_paragraphs (text : Str) : List Str :=
  (pySplitNl text).foldl
    (fun acc para => if (pyStrip para).isEmpty then acc else acc ++ [para]) []

/-- `save_docx` (bot.py 1251-1264): the paragraphs of the written
document and the returned path
`os.path.join(tempfile.gettempdir(), filename)`; the temp directory is
modelled as `/tmp`. -/
def save_docx (text filename : Str) : List Str × Str :=
  (save_docx_paragraphs text, str "/tmp/" ++ filename)

/-- The paragraph loop of `generate_doc` (utils/docgen.py 17-18):
`for line in text.split('\n'): doc.add_paragraph(line)` — no blank-line
filter. -/
def generate_doc_paragraphs (text : Str) : List Str := pySplitNl text

/-! ## Theorems -/
theorem scanToken_length : ∀ {l t r : Str},
    scanToken l = some (t, r) → r.length < l.length := by
  intro l
  induction l with
  | nil => intro t r h; simp [scanToken] at h
  | cons c rest ih =>
    intro t r h
    by_cases hc : c = ']'
    · simp [scanToken, hc] at h
      simp [← h.2]
    · by_cases hn : c = '\n'
      · simp [scanToken, hc, hn] at h
      · cases hs : scanToken rest with
        | none => simp [scanToken, hc, hn, hs] at h
        | some p =>
          simp [scanToken, hc, hn, hs] at h
          have hr := ih (t := p.1) (r := p.2) (by simp [hs])
          obtain ⟨h1, h2⟩ := h
          subst h2
          exact Nat.lt_succ_of_lt hr

theorem findAux_mono : ∀ (f₁ f₂ : Nat) (s : Str),
    s.length ≤ f₁ → s.length ≤ f₂ → findAux f₁ s = findAux f₂ s := by
  intro f₁
  induction f₁ with
  | zero =>
    intro f₂ s h1 _
    have : s = [] := List.eq_nil_of_length_eq_zero (Nat.le_zero.mp h1)
    subst this
    cases f₂ <;> rfl
  | succ f ih =>
    intro f₂ s h1 h2
    cases s with
    | nil => cases f₂ <;> rfl
    | cons c rest =>
      cases f₂ with
      | zero => simp at h2
      | succ f₂' =>
        simp only [List.length_cons] at h1 h2
        simp only [findAux]
        cases hs : scanToken rest with
        | none =>
          by_cases hc : c = '['
          · simp [hc, hs, ih f₂' rest (by omega) (by omega)]
          · simp [hc, ih f₂' rest (by omega) (by omega)]
        | some p =>
          have hr := scanToken_length (l := rest) (t := p.1) (r := p.2) (by simp [hs])
          by_cases hc : c = '['
          · simp [hc, hs, ih f₂' p.2 (by omega) (by omega)]
          · simp [hc, ih f₂' rest (by omega) (by omega)]

theorem findPlaceholders_nil : findPlaceholders [] = [] := rfl

theorem findPlaceholders_cons (c : Char) (rest : Str) :
    findPlaceholders (c :: rest) =
      if c = '[' then
        match scanToken rest with
        | some (t, r) => t :: findPlaceholders r
        | none => findPlaceholders rest
      else findPlaceholders rest := by
  show findAux (rest.length + 1) (c :: rest) = _
  simp only [findAux]
  cases hs : scanToken rest with
  | none =>
    by_cases hc : c = '[' <;>
      simp [hc, findPlaceholders, findAux_mono rest.length rest.length rest le_rfl le_rfl]
  | some p =>
    have hr := scanToken_length (l := rest) (t := p.1) (r := p.2) (by simp [hs])
    by_cases hc : c = '['
    · simp [hc, findPlaceholders, findAux_mono rest.length p.2.length p.2 (by omega) le_rfl]
    · simp [hc, findPlaceholders]

theorem scanTokenSpec_length : ∀ {l t r : Str},
    scanTokenSpec l = some (t, r) → r.length < l.length := by
  intro l
  induction l with
  | nil => intro t r h; simp [scanTokenSpec] at h
  | cons c rest ih =>
    intro t r h
    by_cases hc : c = ']'
    · simp [scanTokenSpec, hc] at h
      simp [← h.2]
    · cases hs : scanTokenSpec rest with
      | none => simp [scanTokenSpec, hc, hs] at h
      | some p =>
        simp [scanTokenSpec, hc, hs] at h
        have hr := ih (t := p.1) (r := p.2) (by simp [hs])
        obtain ⟨h1, h2⟩ := h
        subst h2
        exact Nat.lt_succ_of_lt hr

theorem findSpecAux_mono : ∀ (f₁ f₂ : Nat) (s : Str),
    s.length ≤ f₁ → s.length ≤ f₂ → findSpecAux f₁ s = findSpecAux f₂ s := by
  intro f₁
  induction f₁ with
  | zero =>
    intro f₂ s h1 _
    have : s = [] := List.eq_nil_of_length_eq_zero (Nat.le_zero.mp h1)
    subst this
    cases f₂ <;> rfl
  | succ f ih =>
    intro f₂ s h1 h2
    cases s with
    | nil => cases f₂ <;> rfl
    | cons c rest =>
      cases f₂ with
      | zero => simp at h2
      | succ f₂' =>
        simp only [List.length_cons] at h1 h2
        simp only [findSpecAux]
        cases hs : scanTokenSpec rest with
        | none =>
          by_cases hc : c = '['
          · simp [hc, hs, ih f₂' rest (by omega) (by omega)]
          · simp [hc, ih f₂' rest (by omega) (by omega)]
        | some p =>
          have hr := scanTokenSpec_length (l := rest) (t := p.1) (r := p.2) (by simp [hs])
          by_cases hc : c = '['
          · by_cases ht : p.1.isEmpty <;>
              simp [hc, hs, ht, ih f₂' rest (by omega) (by omega),
                ih f₂' p.2 (by omega) (by omega)]
          · simp [hc, ih f₂' rest (by omega) (by omega)]

theorem replAux_mono (p : Char) (pt rep : Str) : ∀ (f₁ f₂ : Nat) (s : Str),
    s.length ≤ f₁ → s.length ≤ f₂ → replAux p pt rep f₁ s = replAux p pt rep f₂ s := by
  intro f₁
  induction f₁ with
  | zero =>
    intro f₂ s h1 _
    have : s = [] := List.eq_nil_of_length_eq_zero (Nat.le_zero.mp h1)
    subst this
    cases f₂ <;> rfl
  | succ f ih =>
    intro f₂ s h1 h2
    cases s with
    | nil => cases f₂ <;> rfl
    | cons c rest =>
      cases f₂ with
      | zero => simp at h2
      | succ f₂' =>
        simp only [List.length_cons] at h1 h2
        have hd : (rest.drop pt.length).length ≤ rest.length := by
          simp [List.length_drop]
        simp only [replAux]
        by_cases hp : isPre (p :: pt) (c :: rest)
        · simp [hp, ih f₂' (rest.drop pt.length) (by omega) (by omega)]
        · simp [hp, ih f₂' rest (by omega) (by omega)]

theorem strReplace_nil (pat rep : Str) : strReplace [] pat rep = [] := by
  cases pat <;> rfl

theorem strReplace_cons (c : Char) (rest : Str) (p : Char) (pt rep : Str) :
    strReplace (c :: rest) (p :: pt) rep =
      if isPre (p :: pt) (c :: rest) then
        rep ++ strReplace (rest.drop pt.length) (p :: pt) rep
      else
        c :: strReplace rest (p :: pt) rep := by
  show replAux p pt rep (rest.length + 1) (c :: rest) = _
  simp only [replAux]
  have hd : (rest.drop pt.length).length ≤ rest.length := by
    simp [List.length_drop]
  by_cases hp : isPre (p :: pt) (c :: rest)
  · simp [hp, strReplace, replAux_mono p pt rep rest.length (rest.drop pt.length).length
      (rest.drop pt.length) (by omega) le_rfl]
  · simp [hp, strReplace]

theorem SegsOK_cons {sg : Seg} {rest : List Seg} (h : SegsOK (sg :: rest)) :
    SegOK sg ∧ SegsOK rest :=
  ⟨h sg (by simp), fun x hx => h x (by simp [hx])⟩

/-! ### Extraction on well-formed texts -/

theorem scanToken_closes (n t : Str) (hn : ∀ c ∈ n, c ≠ ']' ∧ c ≠ '\n') :
    scanToken (n ++ ']' :: t) = some (n, t) := by
  induction n with
  | nil => simp [scanToken]
  | cons a n' ih =>
    have ha := hn a (by simp)
    simp only [List.cons_append, scanToken, if_neg ha.1, if_neg ha.2, List.append_eq,
      ih (fun c hc => hn c (by simp [hc]))]

theorem findPlaceholders_append_plain (s t : Str) (hs : ∀ c ∈ s, c ≠ '[') :
    findPlaceholders (s ++ t) = findPlaceholders t := by
  induction s with
  | nil => rfl
  | cons a s' ih =>
    have ha := hs a (by simp)
    rw [List.cons_append, findPlaceholders_cons]
    simp [ha, ih (fun c hc => hs c (by simp [hc]))]

/-- On a well-formed text the code's regex extracts exactly the token
names, in order. -/
theorem findPlaceholders_renderAll (l : List Seg) (h : SegsOK l) :
    findPlaceholders (renderAll l) = tokNames l := by
  induction l with
  | nil => rfl
  | cons sg rest ih =>
    obtain ⟨hsg, hrest⟩ := SegsOK_cons h
    cases sg with
    | plain s =>
      simp only [renderAll, Seg.render, tokNames]
      rw [findPlaceholders_append_plain s _ hsg, ih hrest]
    | tok n =>
      obtain ⟨hne, hchars⟩ := hsg
      have hshape : renderAll (Seg.tok n :: rest) = '[' :: (n ++ ']' :: renderAll rest) := by
        simp [renderAll, Seg.render, bracketPat]
      rw [hshape, findPlaceholders_cons]
      rw [scanToken_closes n (renderAll rest) (fun c hc => ⟨(hchars c hc).2.1, (hchars c hc).2.2⟩)]
      simp [tokNames, ih hrest]

theorem findPlaceholdersSpec_nil : findPlaceholdersSpec [] = [] := rfl

theorem findPlaceholdersSpec_cons (c : Char) (rest : Str) :
    findPlaceholdersSpec (c :: rest) =
      if c = '[' then
        match scanTokenSpec rest with
        | some (t, r) =>
          if t.isEmpty then findPlaceholdersSpec rest else t :: findPlaceholdersSpec r
        | none => findPlaceholdersSpec rest
      else findPlaceholdersSpec rest := by
  show findSpecAux (rest.length + 1) (c :: rest) = _
  simp only [findSpecAux]
  cases hs : scanTokenSpec rest with
  | none =>
    by_cases hc : c = '[' <;>
      simp [hc, findPlaceholdersSpec, findSpecAux_mono rest.length rest.length rest le_rfl le_rfl]
  | some p =>
    have hr := scanTokenSpec_length (l := rest) (t := p.1) (r := p.2) (by simp [hs])
    by_cases hc : c = '['
    · by_cases ht : p.1.isEmpty <;>
        simp [hc, ht, findPlaceholdersSpec,
          findSpecAux_mono rest.length p.2.length p.2 (by omega) le_rfl]
    · simp [hc, findPlaceholdersSpec]

theorem scanTokenSpec_closes (n t : Str) (hn : ∀ c ∈ n, c ≠ ']') :
    scanTokenSpec (n ++ ']' :: t) = some (n, t) := by
  induction n with
  | nil => simp [scanTokenSpec]
  | cons a n' ih =>
    have ha := hn a (by simp)
    simp only [List.cons_append, scanTokenSpec, if_neg ha, List.append_eq,
      ih (fun c hc => hn c (by simp [hc]))]

theorem findPlaceholdersSpec_append_plain (s t : Str) (hs : ∀ c ∈ s, c ≠ '[') :
    findPlaceholdersSpec (s ++ t) = findPlaceholdersSpec t := by
  induction s with
  | nil => rfl
  | cons a s' ih =>
    have ha := hs a (by simp)
    rw [List.cons_append, findPlaceholdersSpec_cons]
    simp [ha, ih (fun c hc => hs c (by simp [hc]))]

/-- On a well-formed text the spec's regex also extracts exactly the
token names, in order: the two regexes agree there. -/
theorem findPlaceholdersSpec_renderAll (l : List Seg) (h : SegsOK l) :
    findPlaceholdersSpec (renderAll l) = tokNames l := by
  induction l with
  | nil => rfl
  | cons sg rest ih =>
    obtain ⟨hsg, hrest⟩ := SegsOK_cons h
    cases sg with
    | plain s =>
      simp only [renderAll, Seg.render, tokNames]
      rw [findPlaceholdersSpec_append_plain s _ hsg, ih hrest]
    | tok n =>
      obtain ⟨hne, hchars⟩ := hsg
      have hshape : renderAll (Seg.tok n :: rest) = '[' :: (n ++ ']' :: renderAll rest) := by
        simp [renderAll, Seg.render, bracketPat]
      rw [hshape, findPlaceholdersSpec_cons]
      rw [scanTokenSpec_closes n (renderAll rest) (fun c hc => (hchars c hc).2.1)]
      have : n.isEmpty = false := by
        cases n with
        | nil => exact absurd rfl hne
        | cons a n' => rfl
      simp [this, tokNames, ih hrest]

/-! ### Substitution on well-formed texts -/

theorem isPre_head {p c : Char} {pt s : Str} (h : isPre (p :: pt) (c :: s) = true) :
    p = c := by
  simpa [isPre] using And.left (by simpa [isPre] using h)

theorem isPre_self_append (p t : Str) : isPre p (p ++ t) = true := by
  induction p with
  | nil => rfl
  | cons a pa ih => simp [isPre, ih]

theorem drop_len_append (a b : Str) : (a ++ b).drop a.length = b := by
  induction a with
  | nil => rfl
  | cons x a' ih => simp [ih]

/-- A bracket-free token name followed by its closing bracket matches at
the start of another token's body exactly when the names are equal. -/
theorem isPre_token_iff (n m t : Str) (hn : ∀ c ∈ n, c ≠ ']') (hm : ∀ c ∈ m, c ≠ ']') :
    isPre (n ++ [']']) (m ++ ']' :: t) = true ↔ n = m := by
  induction n generalizing m with
  | nil =>
    cases m with
    | nil => simp [isPre]
    | cons b m' =>
      have hb := hm b (by simp)
      simp [isPre, Ne.symm hb]
  | cons a n' ih =>
    have ha := hn a (by simp)
    cases m with
    | nil => simp [isPre, ha]
    | cons b m' =>
      simp only [List.cons_append, isPre, Bool.and_eq_true, decide_eq_true_eq,
        List.cons.injEq, List.append_eq]
      rw [ih m' (fun c hc => hn c (by simp [hc])) (fun c hc => hm c (by simp [hc]))]

theorem strReplace_append_plain (s t : Str) (p : Char) (pt rep : Str)
    (hs : ∀ c ∈ s, c ≠ p) :
    strReplace (s ++ t) (p :: pt) rep = s ++ strReplace t (p :: pt) rep := by
  induction s with
  | nil => rfl
  | cons a s' ih =>
    have ha := hs a (by simp)
    rw [List.cons_append, strReplace_cons]
    have hip : isPre (p :: pt) (a :: (s' ++ t)) = false := by
      cases hb : isPre (p :: pt) (a :: (s' ++ t)) with
      | false => rfl
      | true => exact absurd (isPre_head hb).symm ha
    simp [hip, ih (fun c hc => hs c (by simp [hc]))]

/-- `text.replace(f"[{n}]", v)` on a well-formed text replaces exactly the
`n`-tokens. -/
theorem strReplace_renderAll (l : List Seg) (n v : Str) (h : SegsOK l)
    (hn : ∀ c ∈ n, c ≠ ']') :
    strReplace (renderAll l) (bracketPat n) v = renderAll (replaceTok n v l) := by
  induction l with
  | nil => simp [renderAll, strReplace_nil, replaceTok]
  | cons sg rest ih =>
    obtain ⟨hsg, hrest⟩ := SegsOK_cons h
    cases sg with
    | plain s =>
      simp only [renderAll, Seg.render, replaceTok]
      have hb : bracketPat n = '[' :: (n ++ [']']) := rfl
      rw [hb, strReplace_append_plain s _ '[' (n ++ [']']) v
        (fun c hc => hsg c hc), ← hb, ih hrest]
    | tok m =>
      obtain ⟨hne, hchars⟩ := hsg
      have hshape : renderAll (Seg.tok m :: rest) = '[' :: (m ++ ']' :: renderAll rest) := by
        simp [renderAll, Seg.render, bracketPat]
      have hb : bracketPat n = '[' :: (n ++ [']']) := rfl
      by_cases hmn : m = n
      · subst hmn
        rw [hshape, hb, strReplace_cons]
        have hpre : isPre ('[' :: (m ++ [']'])) ('[' :: (m ++ ']' :: renderAll rest)) = true := by
          have hsh : '[' :: (m ++ ']' :: renderAll rest) = ('[' :: (m ++ [']'])) ++ renderAll rest := by
            simp
          rw [hsh]
          exact isPre_self_append _ _
        rw [if_pos hpre]
        have hdrop : (m ++ ']' :: renderAll rest).drop (m ++ [']']).length = renderAll rest := by
          have h1 : m ++ ']' :: renderAll rest = (m ++ [']']) ++ renderAll rest := by simp
          rw [h1, drop_len_append]
        rw [hdrop, ← hb, ih hrest]
        simp [replaceTok, renderAll, Seg.render]
      · rw [hshape, hb, strReplace_cons]
        have hpre : isPre ('[' :: (n ++ [']'])) ('[' :: (m ++ ']' :: renderAll rest)) = false := by
          have hiff := isPre_token_iff n m (renderAll rest)
            (fun c hc => hn c hc) (fun c hc => (hchars c hc).2.1)
          cases hb2 : isPre ('[' :: (n ++ [']'])) ('[' :: (m ++ ']' :: renderAll rest)) with
          | false => rfl
          | true =>
            have : isPre (n ++ [']']) (m ++ ']' :: renderAll rest) = true := by
              simpa [isPre] using hb2
            exact absurd (hiff.mp this).symm hmn
        simp only [hpre, Bool.false_eq_true, if_false]
        have hwalk : strReplace (m ++ ']' :: renderAll rest) ('[' :: (n ++ [']'])) v
            = m ++ strReplace (']' :: renderAll rest) ('[' :: (n ++ [']'])) v := by
          exact strReplace_append_plain m (']' :: renderAll rest) '[' (n ++ [']']) v
            (fun c hc => (hchars c hc).1)
        have hwalk2 : strReplace (']' :: renderAll rest) ('[' :: (n ++ [']'])) v
            = ']' :: strReplace (renderAll rest) ('[' :: (n ++ [']'])) v := by
          have := strReplace_append_plain [']'] (renderAll rest) '[' (n ++ [']']) v
            (by intro c hc; simp at hc; simp [hc])
          simpa using this
        rw [hwalk, hwalk2, ← hb, ih hrest]
        simp [replaceTok, hmn, renderAll, Seg.render, bracketPat]

theorem SegsOK_replaceTok (l : List Seg) (n v : Str) (h : SegsOK l)
    (hv : ∀ c ∈ v, c ≠ '[') : SegsOK (replaceTok n v l) := by
  induction l with
  | nil => exact h
  | cons sg rest ih =>
    obtain ⟨hsg, hrest⟩ := SegsOK_cons h
    intro x hx
    cases sg with
    | plain s =>
      simp only [replaceTok, List.mem_cons] at hx
      rcases hx with hx | hx
      · subst hx; exact hsg
      · exact ih hrest x hx
    | tok m =>
      simp only [replaceTok, List.mem_cons] at hx
      rcases hx with hx | hx
      · subst hx
        by_cases hmn : m = n
        · simpa [hmn, SegOK] using hv
        · simpa [hmn, SegOK] using hsg
      · exact ih hrest x hx

theorem tokNames_replaceTok (l : List Seg) (n v : Str) :
    ∀ x, x ∈ tokNames (replaceTok n v l) ↔ x ∈ tokNames l ∧ x ≠ n := by
  induction l with
  | nil => simp [replaceTok, tokNames]
  | cons sg rest ih =>
    intro x
    cases sg with
    | plain s => simpa [replaceTok, tokNames] using ih x
    | tok m =>
      by_cases hmn : m = n
      · subst hmn
        simp only [replaceTok, if_pos rfl, tokNames, List.mem_cons]
        rw [ih x]
        constructor
        · rintro ⟨hx, hne⟩; exact ⟨Or.inr hx, hne⟩
        · rintro ⟨hx | hx, hne⟩
          · exact absurd hx hne
          · exact ⟨hx, hne⟩
      · simp only [replaceTok, if_neg hmn, tokNames, List.mem_cons]
        rw [ih x]
        constructor
        · rintro (hx | ⟨hx, hne⟩)
          · subst hx; exact ⟨Or.inl rfl, hmn⟩
          · exact ⟨Or.inr hx, hne⟩
        · rintro ⟨hx | hx, hne⟩
          · exact Or.inl hx
          · exact Or.inr ⟨hx, hne⟩

theorem SegsOK_foldRT (M : List (Str × Str)) (l : List Seg) (h : SegsOK l)
    (hM : ∀ q ∈ M, EntryOK q) : SegsOK (foldRT M l) := by
  induction M generalizing l with
  | nil => exact h
  | cons q M' ih =>
    have hq := hM q (by simp)
    exact ih (replaceTok q.1 q.2 l)
      (SegsOK_replaceTok l q.1 q.2 h hq.2)
      (fun r hr => hM r (by simp [hr]))

theorem tokNames_foldRT (M : List (Str × Str)) (l : List Seg) :
    ∀ x, x ∈ tokNames (foldRT M l) ↔ x ∈ tokNames l ∧ x ∉ M.map Prod.fst := by
  induction M generalizing l with
  | nil => simp [foldRT]
  | cons q M' ih =>
    intro x
    show x ∈ tokNames (foldRT M' (replaceTok q.1 q.2 l)) ↔ _
    rw [ih (replaceTok q.1 q.2 l) x]
    rw [tokNames_replaceTok l q.1 q.2 x]
    simp only [List.map_cons, List.mem_cons, not_or]
    tauto

/-- The whole substitution loop on a well-formed text is segment-wise
token replacement. -/
theorem substituteVars_renderAll (M : List (Str × Str)) (l : List Seg) (h : SegsOK l)
    (hM : ∀ q ∈ M, EntryOK q) :
    substituteVars M (renderAll l) = renderAll (foldRT M l) := by
  induction M generalizing l with
  | nil => rfl
  | cons q M' ih =>
    have hq := hM q (by simp)
    show substituteVars M' (strReplace (renderAll l) (bracketPat q.1) q.2) = _
    rw [strReplace_renderAll l q.1 q.2 h hq.1,
      ih (replaceTok q.1 q.2 l) (SegsOK_replaceTok l q.1 q.2 h hq.2)
        (fun r hr => hM r (by simp [hr]))]
    rfl

theorem replaceTok_id (l : List Seg) (n v : Str) (h : n ∉ tokNames l) :
    replaceTok n v l = l := by
  induction l with
  | nil => rfl
  | cons sg rest ih =>
    cases sg with
    | plain s =>
      simp only [tokNames] at h
      simp [replaceTok, ih h]
    | tok m =>
      simp only [tokNames, List.mem_cons, not_or] at h
      have hmn : ¬m = n := fun hmn => h.1 hmn.symm
      simp [replaceTok, hmn, ih h.2]

theorem foldRT_id (M : List (Str × Str)) (l : List Seg)
    (h : ∀ x ∈ tokNames l, x ∉ M.map Prod.fst) : foldRT M l = l := by
  induction M with
  | nil => rfl
  | cons q M' ih =>
    show foldRT M' (replaceTok q.1 q.2 l) = l
    have hq1 : q.1 ∉ tokNames l := by
      intro hx
      exact h q.1 hx (by simp)
    rw [replaceTok_id l q.1 q.2 hq1]
    exact ih (fun x hx => by
      have := h x hx
      simp only [List.map_cons, List.mem_cons, not_or] at this
      exact this.2)

/-! ### Character-level facts about the generated phrases -/

theorem mem_pyStrip {c : Char} {s : Str} (h : c ∈ pyStrip s) : c ∈ s := by
  simp only [pyStrip, List.mem_reverse] at h
  have h1 := (List.dropWhile_sublist (l := (s.dropWhile pyWS).reverse) (p := pyWS)).subset h
  simp only [List.mem_reverse] at h1
  exact (List.dropWhile_sublist (l := s) (p := pyWS)).subset h1

theorem mem_getD_word {c : Char} {l : List Str} {i : Nat} (h : c ∈ l.getD i []) :
    ∃ w ∈ l, c ∈ w := by
  by_cases hi : i < l.length
  · rw [List.getD_eq_getElem l [] hi] at h
    exact ⟨l[i], List.getElem_mem hi, h⟩
  · rw [List.getD_eq_default l [] (by omega)] at h
    exact absurd h (List.not_mem_nil c)

theorem word_tables_no_bracket :
    ∀ w ∈ units ++ teens ++ tens ++ hundreds, ∀ c ∈ w, c ≠ '[' := by decide

theorem numConvertAux_no_bracket :
    ∀ (fuel n : Nat) (c : Char), c ∈ numConvertAux fuel n → c ≠ '[' := by
  intro fuel
  induction fuel with
  | zero => intro n c h; exact absurd h (List.not_mem_nil c)
  | succ f ih =>
    intro n c h
    simp only [numConvertAux] at h
    split at h
    · obtain ⟨w, hw, hc⟩ := mem_getD_word h
      exact word_tables_no_bracket w (by simp [hw]) c hc
    · split at h
      · obtain ⟨w, hw, hc⟩ := mem_getD_word h
        exact word_tables_no_bracket w (by simp [hw]) c hc
      · split at h
        · rw [List.mem_append] at h
          rcases h with h | h
          · obtain ⟨w, hw, hc⟩ := mem_getD_word h
            exact word_tables_no_bracket w (by simp [hw]) c hc
          · split at h
            · simp only [List.mem_cons] at h
              rcases h with h | h
              · subst h; decide
              · obtain ⟨w, hw, hc⟩ := mem_getD_word h
                exact word_tables_no_bracket w (by simp [hw]) c hc
            · exact absurd h (List.not_mem_nil c)
        · split at h
          · rw [List.mem_append] at h
            rcases h with h | h
            · obtain ⟨w, hw, hc⟩ := mem_getD_word h
              exact word_tables_no_bracket w (by simp [hw]) c hc
            · split at h
              · simp only [List.mem_cons] at h
                rcases h with h | h
                · subst h; decide
                · exact ih _ c h
              · exact absurd h (List.not_mem_nil c)
          · exact absurd h (List.not_mem_nil c)

theorem num2words_no_bracket {n : Nat} {c : Char} (h : c ∈ num2words n) : c ≠ '[' :=
  numConvertAux_no_bracket 2 n c (mem_pyStrip h)

theorem digit_char_isDig : ∀ k, k < 10 → isDig (Char.ofNat (48 + k)) = true := by
  intro k hk
  interval_cases k <;> decide

theorem natStrAux_digits :
    ∀ (fuel n : Nat) (c : Char), c ∈ natStrAux fuel n → isDig c = true := by
  intro fuel
  induction fuel with
  | zero => intro n c h; exact absurd h (List.not_mem_nil c)
  | succ f ih =>
    intro n c h
    simp only [natStrAux] at h
    split at h
    · simp only [List.mem_singleton] at h
      subst h
      exact digit_char_isDig n (by omega)
    · rw [List.mem_append] at h
      rcases h with h | h
      · exact ih _ c h
      · simp only [List.mem_singleton] at h
        subst h
        exact digit_char_isDig (n % 10) (by omega)

theorem natStr_digits {n : Nat} {c : Char} (h : c ∈ natStr n) : isDig c = true :=
  natStrAux_digits (n + 1) n c h

theorem isDig_ne_bracket {c : Char} (h : isDig c = true) : c ≠ '[' := by
  intro hc
  subst hc
  exact absurd h (by decide)

theorem amountPhrase_no_bracket (a : Nat) : ∀ c ∈ amountPhrase a, c ≠ '[' := by
  intro c hc
  simp only [amountPhrase, List.append_assoc, List.mem_append] at hc
  rcases hc with h | h | h | h
  · exact isDig_ne_bracket (natStr_digits h)
  · revert h; revert c; decide
  · exact num2words_no_bracket h
  · revert h; revert c; decide

theorem rentWordsKey_valid : ValidName rentWordsKey := by decide

/-- Claim C1, counterexample. The extracted placeholder names of the text
`"[B] [A[B] ]"` are `B` and `A[B`; the map filling both of them with
bracket-free values covers every extracted placeholder, yet because
`str.replace` replaces every occurrence globally — including the `[B]`
inside `[A[B]` — the substituted text `"v [Av ]"` still contains a
bracket token. -/
theorem claim_C1_counterexample :
    findPlaceholders (str "[B] [A[B] ]") = [str "B", str "A[B"] ∧
    (∀ q ∈ [(str "B", str "v"), (str "A[B", str "w")], ∀ c ∈ q.2, c ≠ '[' ∧ c ≠ ']') ∧
    prepare_final_substitution [(str "B", str "v"), (str "A[B", str "w")]
      (str "[B] [A[B] ]") = some (str "v [Av ]") ∧
    findPlaceholders (str "v [Av ]") = [str "Av "] := by decide

/-- Claim C1 (amended): on a well-formed document — placeholder names
non-empty and free of brackets and newlines, literal text free of `[` —
a variable map that covers every extracted placeholder (including
`АРЕНДНАЯ_ПЛАТА_ПРОПИСЬЮ` if present) with values containing no `[`
leaves zero bracket tokens after the substitution stage of
`prepare_final_document`. -/
theorem claim_C1 (l : List Seg) (M : List (Str × Str)) (res : Str)
    (hseg : SegsOK l)
    (hM : ∀ q ∈ M, ValidName q.1 ∧ ∀ c ∈ q.2, c ≠ '[')
    (hcov : ∀ n ∈ tokNames l, n ∈ M.map Prod.fst)
    (hres : prepare_final_substitution M (renderAll l) = some res) :
    findPlaceholders res = [] := by
  have hM' : ∀ q ∈ M, EntryOK q := fun q hq =>
    ⟨fun c hc => ((hM q hq).1.2 c hc).2.1, (hM q hq).2⟩
  have hsub : substituteVars M (renderAll l) = renderAll (foldRT M l) :=
    substituteVars_renderAll M l hseg hM'
  have hOK : SegsOK (foldRT M l) := SegsOK_foldRT M l hseg hM'
  have hnames : tokNames (foldRT M l) = [] := by
    rw [List.eq_nil_iff_forall_not_mem]
    intro x hx
    rw [tokNames_foldRT M l x] at hx
    exact hx.2 (hcov x hx.1)
  cases hl : lookupStr M rentKey with
  | none =>
    simp only [prepare_final_substitution, hl, Option.some.injEq] at hres
    rw [← hres, hsub, findPlaceholders_renderAll (foldRT M l) hOK, hnames]
  | some v =>
    cases hp : pyIntOpt v with
    | none => simp [prepare_final_substitution, hl, hp] at hres
    | some amount =>
      simp only [prepare_final_substitution, hl, hp, Option.some.injEq] at hres
      rw [← hres, hsub,
        strReplace_renderAll (foldRT M l) rentWordsKey (amountPhrase amount) hOK
          (fun c hc => (rentWordsKey_valid.2 c hc).2.1),
        findPlaceholders_renderAll _
          (SegsOK_replaceTok _ _ _ hOK (amountPhrase_no_bracket amount)),
        List.eq_nil_iff_forall_not_mem]
      intro x hx
      rw [tokNames_replaceTok _ _ _ x, hnames] at hx
      exact absurd hx.1 (List.not_mem_nil x)

/-- Claim C1, witness: a concrete well-formed instance through the
amended theorem, with `АРЕНДНАЯ_ПЛАТА` exercising the amount branch. -/
theorem claim_C1_witness :
    SegsOK [Seg.tok (str "АРЕНДНАЯ_ПЛАТА")] ∧ findPlaceholders (str "500") = [] :=
  ⟨by decide,
    claim_C1 [Seg.tok (str "АРЕНДНАЯ_ПЛАТА")] [(str "АРЕНДНАЯ_ПЛАТА", str "500")]
      (str "500") (by decide) (by decide) (by decide) (by decide)⟩

/-- Claim C2, counterexample. The code's regex `\[(.*?)\]` and the spec's
regex `\[([^\]]+)\]` disagree: on `"[]"` the code extracts the empty name
while the spec's regex matches nothing, and on a bracketed token
containing a newline the spec's regex matches while the code extracts
nothing — so the scan is not exact on all texts. -/
theorem claim_C2_counterexample :
    findPlaceholders (str "[]") = [[]] ∧
    findPlaceholdersSpec (str "[]") = [] ∧
    findPlaceholders (str "до [A\nB] после") = [] ∧
    findPlaceholdersSpec (str "до [A\nB] после") = [str "A\nB"] := by decide

/-- Claim C2 (amended): on well-formed texts — bracketed tokens non-empty
with no bracket or newline inside — the code's extraction is exact: it
returns precisely the token names present (agreeing with the spec's own
regex), and membership is order- and duplicate-insensitive. -/
theorem claim_C2 (l : List Seg) (h : SegsOK l) :
    findPlaceholders (renderAll l) = tokNames l ∧
    findPlaceholdersSpec (renderAll l) = tokNames l ∧
    ∀ n, n ∈ findPlaceholders (renderAll l) ↔ n ∈ tokNames l := by
  refine ⟨findPlaceholders_renderAll l h, findPlaceholdersSpec_renderAll l h, fun n => ?_⟩
  rw [findPlaceholders_renderAll l h]

/-- Claim C2, witness: a concrete well-formed text with a duplicate
placeholder. -/
theorem claim_C2_witness :
    SegsOK [Seg.tok (str "ИНН"), Seg.plain (str " и "), Seg.tok (str "ИНН"),
      Seg.tok (str "ДАТА")] ∧
    findPlaceholders (renderAll [Seg.tok (str "ИНН"), Seg.plain (str " и "),
      Seg.tok (str "ИНН"), Seg.tok (str "ДАТА")])
      = [str "ИНН", str "ИНН", str "ДАТА"] :=
  ⟨by decide,
   by
    rw [(claim_C2 [Seg.tok (str "ИНН"), Seg.plain (str " и "), Seg.tok (str "ИНН"),
      Seg.tok (str "ДАТА")] (by decide)).1]
    decide⟩

/-- Claim C6, counterexample. With a value that itself contains a bracket
token, the substitution loop is not idempotent: filling `A` with
`"x[B]y"` (and `B` with `"z"`, skipping `C`) gives `"x[B]y z [C]"` after
one pass but `"xzy z [C]"` after a second pass with the same map. -/
theorem claim_C6_counterexample :
    findPlaceholders (str "[A] [B] [C]") = [str "A", str "B", str "C"] ∧
    prepare_final_substitution [(str "B", str "z"), (str "A", str "x[B]y")]
      (str "[A] [B] [C]") = some (str "x[B]y z [C]") ∧
    prepare_final_substitution [(str "B", str "z"), (str "A", str "x[B]y")]
      (str "x[B]y z [C]") = some (str "xzy z [C]") ∧
    str "x[B]y z [C]" ≠ str "xzy z [C]" := by decide

/-- Claim C6 (amended): on a well-formed document, when every filled value
is free of `[` (in particular contains no bracket token), the
substitution stage is idempotent — running it again with the same map
reproduces the same text — and the placeholders remaining in the result
are exactly the skipped ones (except `АРЕНДНАЯ_ПЛАТА_ПРОПИСЬЮ`, which the
amount branch also replaces whenever `АРЕНДНАЯ_ПЛАТА` is filled). -/
theorem claim_C6 (l : List Seg) (M : List (Str × Str)) (res : Str)
    (hseg : SegsOK l)
    (hM : ∀ q ∈ M, ValidName q.1 ∧ ∀ c ∈ q.2, c ≠ '[')
    (hres : prepare_final_substitution M (renderAll l) = some res) :
    prepare_final_substitution M res = some res ∧
    ∀ n, n ∈ findPlaceholders res ↔
      n ∈ tokNames l ∧ n ∉ M.map Prod.fst ∧
        ¬(n = rentWordsKey ∧ (lookupStr M rentKey).isSome) := by
  have hM' : ∀ q ∈ M, EntryOK q := fun q hq =>
    ⟨fun c hc => ((hM q hq).1.2 c hc).2.1, (hM q hq).2⟩
  have hsub : substituteVars M (renderAll l) = renderAll (foldRT M l) :=
    substituteVars_renderAll M l hseg hM'
  have hOK1 : SegsOK (foldRT M l) := SegsOK_foldRT M l hseg hM'
  cases hl : lookupStr M rentKey with
  | none =>
    simp only [prepare_final_substitution, hl, Option.some.injEq] at hres
    have hdisj : ∀ x ∈ tokNames (foldRT M l), x ∉ M.map Prod.fst :=
      fun x hx => ((tokNames_foldRT M l x).mp hx).2
    constructor
    · rw [← hres, hsub]
      simp only [prepare_final_substitution, hl, Option.some.injEq]
      rw [substituteVars_renderAll M (foldRT M l) hOK1 hM', foldRT_id M (foldRT M l) hdisj]
    · intro n
      rw [← hres, hsub, findPlaceholders_renderAll (foldRT M l) hOK1, tokNames_foldRT M l n]
      simp [hl]
  | some v =>
    cases hp : pyIntOpt v with
    | none => simp [prepare_final_substitution, hl, hp] at hres
    | some a =>
      simp only [prepare_final_substitution, hl, hp, Option.some.injEq] at hres
      have hrw : strReplace (renderAll (foldRT M l)) (bracketPat rentWordsKey) (amountPhrase a)
          = renderAll (replaceTok rentWordsKey (amountPhrase a) (foldRT M l)) :=
        strReplace_renderAll _ _ _ hOK1 (fun c hc => (rentWordsKey_valid.2 c hc).2.1)
      have hres' : res = renderAll (replaceTok rentWordsKey (amountPhrase a) (foldRT M l)) := by
        rw [← hres, hsub, hrw]
      have hOK2 : SegsOK (replaceTok rentWordsKey (amountPhrase a) (foldRT M l)) :=
        SegsOK_replaceTok _ _ _ hOK1 (amountPhrase_no_bracket a)
      have hmem2 : ∀ x, x ∈ tokNames (replaceTok rentWordsKey (amountPhrase a) (foldRT M l)) ↔
          (x ∈ tokNames l ∧ x ∉ M.map Prod.fst) ∧ x ≠ rentWordsKey := by
        intro x
        rw [tokNames_replaceTok _ _ _ x, tokNames_foldRT M l x]
      constructor
      · rw [hres']
        simp only [prepare_final_substitution, hl, hp, Option.some.injEq]
        have hdisj2 : ∀ x ∈ tokNames (replaceTok rentWordsKey (amountPhrase a) (foldRT M l)),
            x ∉ M.map Prod.fst := fun x hx => ((hmem2 x).mp hx).1.2
        rw [substituteVars_renderAll M _ hOK2 hM', foldRT_id M _ hdisj2,
          strReplace_renderAll _ _ _ hOK2 (fun c hc => (rentWordsKey_valid.2 c hc).2.1),
          replaceTok_id _ _ _ (fun hx => ((hmem2 rentWordsKey).mp hx).2 rfl)]
      · intro n
        rw [hres', findPlaceholders_renderAll _ hOK2, hmem2 n]
        simp [hl]
        tauto

/-- Claim C6, witness: filling `А` and skipping `С` on a concrete
well-formed document; a second run reproduces the same text. -/
theorem claim_C6_witness :
    SegsOK [Seg.tok (str "А"), Seg.plain (str " "), Seg.tok (str "С")] ∧
    prepare_final_substitution [(str "А", str "в")] (str "в [С]") = some (str "в [С]") :=
  ⟨by decide,
   (claim_C6 [Seg.tok (str "А"), Seg.plain (str " "), Seg.tok (str "С")]
     [(str "А", str "в")] (str "в [С]") (by decide) (by decide) (by decide)).1⟩

/-- Claim C7: the date validator accepts `"01.01.2023"` and rejects
`"2023-01-01"`; the tax-ID validator accepts every 10-digit and every
12-digit all-numeric string and rejects every 11-character string. -/
theorem claim_C7 :
    (∀ s : Str, s.length = 10 → (∀ c ∈ s, isDig c = true) → validate_inn s = true) ∧
    (∀ s : Str, s.length = 12 → (∀ c ∈ s, isDig c = true) → validate_inn s = true) ∧
    (∀ s : Str, s.length = 11 → validate_inn s = false) ∧
    dateMatch (str "01.01.2023") = true ∧
    dateMatch (str "2023-01-01") = false := by
  refine ⟨?_, ?_, ?_, by decide, by decide⟩
  · intro s hlen hdig
    have hne : s.isEmpty = false := by
      cases s with
      | nil => simp at hlen
      | cons a t => rfl
    simp only [validate_inn, pyIsdigit, hne, Bool.not_false, hlen, Bool.true_and]
    rw [Bool.and_eq_true, List.all_eq_true]
    exact ⟨hdig, by decide⟩
  · intro s hlen hdig
    have hne : s.isEmpty = false := by
      cases s with
      | nil => simp at hlen
      | cons a t => rfl
    simp only [validate_inn, pyIsdigit, hne, Bool.not_false, hlen, Bool.true_and]
    rw [Bool.and_eq_true, List.all_eq_true]
    exact ⟨hdig, by decide⟩
  · intro s hlen
    simp [validate_inn, hlen]

/-- Claim C7, witness: concrete tax-ID strings of lengths 10, 12 and 11. -/
theorem claim_C7_witness :
    validate_inn (str "1234567890") = true ∧
    validate_inn (str "123456789012") = true ∧
    validate_inn (str "12345678901") = false :=
  ⟨claim_C7.1 (str "1234567890") (by decide) (by decide),
   claim_C7.2.1 (str "123456789012") (by decide) (by decide),
   claim_C7.2.2.1 (str "12345678901") (by decide)⟩

set_option maxRecDepth 10000 in
set_option maxHeartbeats 1000000 in
theorem num2words_pos : ∀ n, n < 1000 → 1 ≤ n → num2words n ≠ [] := by decide

/-- Claim C10: `num2words` is non-empty on 1..999 and empty on 0 and on
every `n ≥ 1000`; consequently the `[АРЕНДНАЯ_ПЛАТА_ПРОПИСЬЮ]`
replacement phrase for an amount of 1000 or more is the amount followed
by empty parentheses, e.g. `"50000 () рублей"`. -/
theorem claim_C10 :
    (∀ n, 1 ≤ n → n ≤ 999 → num2words n ≠ []) ∧
    (∀ n, 1000 ≤ n → num2words n = []) ∧
    num2words 0 = [] ∧
    (∀ a, 1000 ≤ a → amountPhrase a = natStr a ++ str " () рублей") ∧
    amountPhrase 50000 = str "50000 () рублей" := by
  have hbig : ∀ n, 1000 ≤ n → num2words n = [] := by
    intro n h
    have h10 : ¬ n < 10 := by omega
    have h20 : ¬ n < 20 := by omega
    have h100 : ¬ n < 100 := by omega
    have h1000 : ¬ n < 1000 := by omega
    simp [num2words, numConvert, numConvertAux, h10, h20, h100, h1000, pyStrip]
  refine ⟨fun n h1 h2 => num2words_pos n (by omega) h1, hbig, by decide, ?_, by decide⟩
  intro a ha
  simp only [amountPhrase, hbig a ha]
  simp [List.append_assoc]
  decide

/-- Claim C10, witness: concrete amounts on each side of the 1000
boundary. -/
theorem claim_C10_witness :
    num2words 7 ≠ [] ∧ num2words 1000 = [] ∧
    amountPhrase 50000 = natStr 50000 ++ str " () рублей" :=
  ⟨claim_C10.1 7 (by omega) (by omega), claim_C10.2.1 1000 (by omega),
    claim_C10.2.2.2.1 50000 (by omega)⟩

/-- Claim C3, counterexample. On a timeout the code returns an apology
string as a normal value — `generate_gpt_responseExc` yields `Except.ok`
where the spec's contract demands `Except.error` — and the caller keeps
the session, storing the apology as the document. -/
theorem claim_C3_counterexample :
    generate_gpt_responseExc ApiOutcome.readTimeout = Except.ok timeoutApology ∧
    specGenerateContract ApiOutcome.readTimeout = Except.error GenerationError.mk ∧
    handle_special_terms ApiOutcome.readTimeout
      = { final_document := timeoutApology, session_cleared := false } :=
  ⟨rfl, rfl, rfl⟩

/-- Claim C3 (amended): every network/timeout/API failure of the external
call is caught inside `generate_gpt_response` and converted to a generic
user-facing apology string returned as a normal value — no exception
reaches the caller, no retry happens, and the session is not cleared: the
flow continues with the apology text in place of generated content. -/
theorem claim_C3 (o : ApiOutcome)
    (h : o = ApiOutcome.readTimeout ∨ o = ApiOutcome.apiError) :
    generate_gpt_responseExc o =
      Except.ok (if o = ApiOutcome.readTimeout then timeoutApology else errorApology) ∧
    handle_special_terms o =
      { final_document := if o = ApiOutcome.readTimeout then timeoutApology else errorApology,
        session_cleared := false } := by
  rcases h with h | h <;> subst h <;> exact ⟨rfl, rfl⟩

/-- Claim C3, witness: the timeout outcome. -/
theorem claim_C3_witness :
    (ApiOutcome.readTimeout = ApiOutcome.readTimeout ∨
      ApiOutcome.readTimeout = ApiOutcome.apiError) ∧
    generate_gpt_responseExc ApiOutcome.readTimeout =
      Except.ok (if ApiOutcome.readTimeout = ApiOutcome.readTimeout
        then timeoutApology else errorApology) :=
  ⟨Or.inl rfl, (claim_C3 ApiOutcome.readTimeout (Or.inl rfl)).1⟩

/-- Claim C4, counterexample. After `clear_session(7)` a subsequent
`get_session(7)` does not return `None`: it returns a freshly created
default `SessionData` and re-inserts it into the store. -/
theorem claim_C4_counterexample :
    get_session (clear_session
        [(7, { document_type := some (str "nda"), answers := [(str "вопрос", str "ответ")],
               is_complete := true })] 7) 7
      = (SessionData.init, [(7, SessionData.init)]) := by decide

/-- Claim C4 (amended): for every store and user id, `clear_session`
removes the user's entry — a direct lookup afterwards yields `none` — but
a subsequent `get_session` returns a freshly auto-created default
`SessionData` (document type `None`, empty answers, not complete), never
`None`. -/
theorem claim_C4 (sm : SessionStore) (uid : Nat) :
    storeLookup (clear_session sm uid) uid = none ∧
    (get_session (clear_session sm uid) uid).1 = SessionData.init := by
  have hlook : ∀ (l : SessionStore), storeLookup (l.filter (fun p => p.1 != uid)) uid = none := by
    intro l
    induction l with
    | nil => rfl
    | cons p rest ih =>
      rw [List.filter_cons]
      by_cases hp : p.1 = uid
      · simp [hp, ih]
      · simp [bne_iff_ne, hp, storeLookup, ih]
  exact ⟨hlook sm, by simp [get_session, clear_session, hlook sm]⟩

/-- Claim C5: in `waiting_for_initial_input`, a text message longer than
the 3000-character limit produces exactly one warning and leaves the
state and stored data unchanged; a message at or below the limit stores
the text and leaves the state (towards the generation flow). -/
theorem claim_C5 (text : Str) :
    (text.length > 3000 →
      handle_description text =
        { newState := .waiting_for_initial_input, messages := [tooLongWarning],
          initial_text := none, is_rental := none, business_type := none }) ∧
    (text.length ≤ 3000 →
      (handle_description text).newState ≠ DocGenState.waiting_for_initial_input ∧
      (handle_description text).initial_text = some text ∧
      ((handle_description text).newState = DocGenState.waiting_for_rent_details ∨
        (handle_description text).newState = DocGenState.waiting_for_parties_info)) := by
  constructor
  · intro h
    simp [handle_description, h]
  · intro h
    have hgt : ¬ text.length > 3000 := by omega
    by_cases hr : rentalKeywords.any (fun kw => strIn kw (pyLower text)) <;>
      simp [handle_description, hgt, hr]

/-- Claim C5, witness: a 3001-character message is warned about and kept
in place; a short rental request moves on. -/
theorem claim_C5_witness :
    (List.replicate 3001 'а').length > 3000 ∧
    handle_description (List.replicate 3001 'а') =
      { newState := .waiting_for_initial_input, messages := [tooLongWarning],
        initial_text := none, is_rental := none, business_type := none } ∧
    (str "Нужен договор аренды офиса").length ≤ 3000 ∧
    (handle_description (str "Нужен договор аренды офиса")).newState ≠
      DocGenState.waiting_for_initial_input :=
  ⟨by rw [List.length_replicate]; omega,
    (claim_C5 (List.replicate 3001 'а')).1 (by rw [List.length_replicate]; omega), by decide,
    ((claim_C5 (str "Нужен договор аренды офиса")).2 (by decide)).1⟩

/-- Claim C8: whenever no JSON object can be found in the generation
response (`re.search` finds no `{...}` block), or `json.loads` fails on
the extracted block, or the call raised — `identify_roles` returns the
empty mapping, and in every case it sends no user-visible message; it
issues a single call with no retry. -/
theorem claim_C8 (response block : Str) (loads : Str → Option RoleInfo) :
    (extractJsonBlock response = none →
      identify_roles response loads = (emptyRoleInfo, [])) ∧
    (extractJsonBlock response = some block → loads block = none →
      identify_roles response loads = (emptyRoleInfo, [])) ∧
    (identify_roles response loads).2 = [] := by
  refine ⟨fun h => by simp [identify_roles, h],
    fun h hl => by simp [identify_roles, h, hl], ?_⟩
  cases hb : extractJsonBlock response with
  | none => simp [identify_roles, hb]
  | some b =>
    cases hl : loads b with
    | none => simp [identify_roles, hb, hl]
    | some r => simp [identify_roles, hb, hl]

/-- Claim C8, witness: a textual refusal with no JSON object, and a block
on which parsing fails. -/
theorem claim_C8_witness :
    extractJsonBlock (str "Не могу определить роли") = none ∧
    identify_roles (str "Не могу определить роли") (fun _ => none)
      = (emptyRoleInfo, []) ∧
    extractJsonBlock (str "вот json: \x7bсломанный") = none :=
  ⟨by decide,
   (claim_C8 (str "Не могу определить роли") [] (fun _ => none)).1 (by decide),
   by decide⟩

theorem save_docx_foldl_filter (lines : List Str) (acc : List Str) :
    lines.foldl (fun acc para => if (pyStrip para).isEmpty then acc else acc ++ [para]) acc
      = acc ++ lines.filter (fun p => !(pyStrip p).isEmpty) := by
  induction lines generalizing acc with
  | nil => simp
  | cons l rest ih =>
    rw [List.foldl_cons, List.filter_cons]
    cases hp : (pyStrip l).isEmpty with
    | true =>
      rw [show (if true = true then acc else acc ++ [l]) = acc from rfl, ih]
      simp
    | false =>
      rw [show (if false = true then acc else acc ++ [l]) = acc ++ [l] from rfl, ih]
      simp

/-- Claim C9, counterexample. `save_docx` drops whitespace-only lines:
the three-line text `"Пункт 1.\n\nПункт 2."` produces only two
paragraphs, so not every line becomes exactly one paragraph. -/
theorem claim_C9_counterexample :
    pySplitNl (str "Пункт 1.\n\nПункт 2.") = [str "Пункт 1.", [], str "Пункт 2."] ∧
    (save_docx (str "Пункт 1.\n\nПункт 2.") (str "final_1.docx")).1
      = [str "Пункт 1.", str "Пункт 2."] ∧
    (save_docx (str "Пункт 1.\n\nПункт 2.") (str "final_1.docx")).1.length ≠
      (pySplitNl (str "Пункт 1.\n\nПункт 2.")).length := by decide

/-- Claim C9 (amended): `save_docx` splits on newlines and appends, in
order, exactly those lines whose `strip()` is non-empty — blank lines are
dropped — and returns the temp-directory path joined with the file name;
the `generate_doc` exporter in `utils/docgen.py` appends every line. -/
theorem claim_C9 (text filename : Str) :
    (save_docx text filename).1
      = (pySplitNl text).filter (fun p => !(pyStrip p).isEmpty) ∧
    (save_docx text filename).2 = str "/tmp/" ++ filename ∧
    generate_doc_paragraphs text = pySplitNl text := by
  refine ⟨?_, rfl, rfl⟩
  show save_docx_paragraphs text = _
  rw [save_docx_paragraphs, save_docx_foldl_filter (pySplitNl text) []]
  rfl
